import Mathlib

/-!
A shallow embedding of the m8-display-tcp I/O engine: the SLIP frame
codec, the device command parser, the display delta cache, the text
grid, the audio ring buffer, the TCP packet framing and the button
bitmask codec, together with theorems settling the specification's
testable properties against the code.
Bytes are modelled as `Nat`, byte arrays as `List Nat`, and the
stateful classes as explicit state-passing functions.
-/

namespace M8

/-! ## SLIP codec (src/serial/slip.ts) -/

def SLIP_END : Nat := 0xC0
def SLIP_ESC : Nat := 0xDB
def SLIP_ESC_END : Nat := 0xDC
def SLIP_ESC_ESC : Nat := 0xDD

inductive SlipState where
  | Normal
  | Escape
deriving DecidableEq, Repr

/-- Decoder state: the frame accumulator and the escape mode. -/
structure SlipDecoder where
  buffer : List Nat
  state : SlipState
deriving DecidableEq, Repr

def slipInit : SlipDecoder := ⟨[], SlipState.Normal⟩

/-- `processNormalByte`: END emits a non-empty accumulator, ESC enters
escape mode, anything else is appended. -/
def processNormalByte (d : SlipDecoder) (b : Nat) : SlipDecoder × List (List Nat) :=
  if b = SLIP_END then
    if 0 < d.buffer.length then (⟨[], SlipState.Normal⟩, [d.buffer]) else (d, [])
  else if b = SLIP_ESC then
    (⟨d.buffer, SlipState.Escape⟩, [])
  else
    (⟨d.buffer ++ [b], SlipState.Normal⟩, [])

/-- `processEscapeByte`: ESC_END appends END, ESC_ESC appends ESC, any
other byte is appended literally; mode returns to Normal. -/
def processEscapeByte (d : SlipDecoder) (b : Nat) : SlipDecoder :=
  let nb := if b = SLIP_ESC_END then SLIP_END else if b = SLIP_ESC_ESC then SLIP_ESC else b
  ⟨d.buffer ++ [nb], SlipState.Normal⟩

def processByte (d : SlipDecoder) (b : Nat) : SlipDecoder × List (List Nat) :=
  match d.state with
  | SlipState.Normal => processNormalByte d b
  | SlipState.Escape => (processEscapeByte d b, [])

/-- `SlipDecoder.feed`: process each byte in order, collecting emitted
frames. -/
def feed : SlipDecoder → List Nat → SlipDecoder × List (List Nat)
  | d, [] => (d, [])
  | d, b :: rest =>
    let r1 := processByte d b
    let r2 := feed r1.1 rest
    (r2.1, r1.2 ++ r2.2)

/-- `slipEncode`, per input byte. -/
def slipEncodeByte (b : Nat) : List Nat :=
  if b = SLIP_END then [SLIP_ESC, SLIP_ESC_END]
  else if b = SLIP_ESC then [SLIP_ESC, SLIP_ESC_ESC]
  else [b]

def slipEncodeBody : List Nat → List Nat
  | [] => []
  | b :: rest => slipEncodeByte b ++ slipEncodeBody rest

/-- `slipEncode`: escape the payload, then append the frame delimiter. -/
def slipEncode (data : List Nat) : List Nat := slipEncodeBody data ++ [SLIP_END]

theorem feed_append (xs ys : List Nat) (d : SlipDecoder) :
    feed d (xs ++ ys) =
      ((feed (feed d xs).1 ys).1, (feed d xs).2 ++ (feed (feed d xs).1 ys).2) := by
  induction xs generalizing d with
  | nil => simp [feed]
  | cons b rest ih => simp [feed, ih, List.append_assoc]

theorem feed_encodeByte (b : Nat) (acc : List Nat) :
    feed ⟨acc, SlipState.Normal⟩ (slipEncodeByte b) =
      (⟨acc ++ [b], SlipState.Normal⟩, []) := by
  by_cases hEnd : b = SLIP_END
  · subst hEnd
    simp [slipEncodeByte, feed, processByte, processNormalByte, processEscapeByte,
      SLIP_END, SLIP_ESC, SLIP_ESC_END, SLIP_ESC_ESC]
  · by_cases hEsc : b = SLIP_ESC
    · subst hEsc
      simp [slipEncodeByte, feed, processByte, processNormalByte, processEscapeByte,
        SLIP_END, SLIP_ESC, SLIP_ESC_END, SLIP_ESC_ESC]
    · simp [slipEncodeByte, feed, processByte, processNormalByte, hEnd, hEsc]

theorem feed_encodeBody (B : List Nat) (acc : List Nat) :
    feed ⟨acc, SlipState.Normal⟩ (slipEncodeBody B) =
      (⟨acc ++ B, SlipState.Normal⟩, []) := by
  induction B generalizing acc with
  | nil => simp [slipEncodeBody, feed]
  | cons b rest ih =>
    rw [slipEncodeBody, feed_append, feed_encodeByte]
    simp [ih, List.append_assoc]

theorem feed_encode (B : List Nat) (acc : List Nat) :
    feed ⟨acc, SlipState.Normal⟩ (slipEncode B) =
      (slipInit, if acc ++ B = [] then [] else [acc ++ B]) := by
  rw [slipEncode, feed_append, feed_encodeBody]
  by_cases h : acc ++ B = []
  · simp [h, feed, processByte, processNormalByte, slipInit]
  · have hlen : 0 < (acc ++ B).length := by
      cases hab : acc ++ B with
      | nil => exact absurd hab h
      | cons x xs => simp
    simp [h, feed, processByte, processNormalByte, hlen, slipInit]
    intro ha hb
    exact h (by simp [ha, hb])

/-- C1 counterexample: encoding the EMPTY byte sequence gives the lone
delimiter `[0xC0]`, and the decoder ignores an END byte over an empty
accumulator, so a fresh decoder emits ZERO frames, not one frame equal
to the empty sequence as the claim states. -/
theorem slip_empty_encode_emits_no_frame :
    (feed slipInit (slipEncode ([] : List Nat))).2 = [] ∧
      (feed slipInit (slipEncode ([] : List Nat))).2 ≠ [([] : List Nat)] := by
  decide

/-- C1 (amended): for every finite list of NONEMPTY byte sequences of
length ≤ 64 KiB, feeding the concatenation of their SLIP encodings to a
fresh decoder emits exactly those frames in order (the single-sequence
case is the list `[B]`), and leaves the decoder in its fresh state. -/
theorem slip_encode_decode_roundtrip (Bs : List (List Nat))
    (h : ∀ B ∈ Bs, B ≠ [] ∧ B.length ≤ 65536 ∧ ∀ b ∈ B, b < 256) :
    feed slipInit ((Bs.map slipEncode).flatten) = (slipInit, Bs) := by
  induction Bs with
  | nil => simp [feed]
  | cons B rest ih =>
    have hB := h B (by simp)
    have hrest : ∀ B' ∈ rest, B' ≠ [] ∧ B'.length ≤ 65536 ∧ ∀ b ∈ B', b < 256 :=
      fun B' hB' => h B' (by simp [hB'])
    have henc : feed slipInit (slipEncode B) = (slipInit, [B]) := by
      have := feed_encode B []
      simpa [slipInit, hB.1] using this
    rw [List.map_cons, List.flatten, feed_append, henc]
    simp [ih hrest]

/-- C1 witness: two concrete frames, one containing both special bytes,
decode back in order. -/
theorem slip_encode_decode_roundtrip_witness :
    feed slipInit ((([[1, 2, 3], [0xC0, 0xDB]] : List (List Nat)).map slipEncode).flatten) =
      (slipInit, [[1, 2, 3], [0xC0, 0xDB]]) :=
  slip_encode_decode_roundtrip [[1, 2, 3], [0xC0, 0xDB]] (by decide)

/-! ## Command parser (src/serial/commands.ts, state/types.ts) -/

/-- Three 8-bit channels; equality is componentwise. -/
structure Color where
  r : Nat
  g : Nat
  b : Nat
deriving DecidableEq, Repr

/-- The tagged union of parsed display commands.  `char` of a text
command is the rendered char code (non-printables map to space 0x20). -/
inductive ParsedCommand where
  | rect (x y width height : Nat) (color : Color)
  | text (char charCode x y : Nat) (fg bg : Color)
  | wave (color : Color) (data : List Nat)
  | jpad (jstate : Nat)
  | system (hardwareType firmwareMajor firmwareMinor firmwarePatch fontMode : Nat)
deriving DecidableEq, Repr

/-- `readU16LE`: `data[offset] | (data[offset+1] << 8)`. -/
def readU16LE (data : List Nat) (offset : Nat) : Nat :=
  data.getD offset 0 + data.getD (offset + 1) 0 * 256

/-- `readColor`: RGB from three consecutive bytes. -/
def readColor (data : List Nat) (offset : Nat) : Color :=
  ⟨data.getD offset 0, data.getD (offset + 1) 0, data.getD (offset + 2) 0⟩

/-- `parseRect` (id 0xFE), with the module-level `lastRectColor` made an
explicit state argument; returns the parsed command and the new
`lastRectColor`.  Mirrors the source if-chain: lengths 6, 7, 10, 11
fall through every branch and behave as the 5-byte form. -/
def parseRect (lastRectColor : Color) (data : List Nat) :
    Option ParsedCommand × Color :=
  let len := data.length
  if len < 5 then (none, lastRectColor)
  else
    let x := readU16LE data 1
    let y := readU16LE data 3
    if len = 5 then
      (some (ParsedCommand.rect x y 1 1 lastRectColor), lastRectColor)
    else if len = 8 then
      let c := readColor data 5
      (some (ParsedCommand.rect x y 1 1 c), c)
    else if len = 9 then
      (some (ParsedCommand.rect x y (readU16LE data 5) (readU16LE data 7) lastRectColor),
        lastRectColor)
    else if 12 ≤ len then
      let c := readColor data 9
      (some (ParsedCommand.rect x y (readU16LE data 5) (readU16LE data 7) c), c)
    else
      (some (ParsedCommand.rect x y 1 1 lastRectColor), lastRectColor)

/-- `parseText` (id 0xFD): 12 bytes. -/
def parseText (data : List Nat) : Option ParsedCommand :=
  if data.length < 12 then none
  else
    let charCode := data.getD 1 0
    some (ParsedCommand.text
      (if 32 ≤ charCode ∧ charCode < 127 then charCode else 32) charCode
      (readU16LE data 2) (readU16LE data 4) (readColor data 6) (readColor data 9))

/-- `parseWave` (id 0xFC): at least 4 bytes. -/
def parseWave (data : List Nat) : Option ParsedCommand :=
  if data.length < 4 then none
  else some (ParsedCommand.wave (readColor data 1) (data.drop 4))

/-- `parseJpad` (id 0xFB): 2 or 3 bytes. -/
def parseJpad (data : List Nat) : Option ParsedCommand :=
  if data.length < 2 then none
  else some (ParsedCommand.jpad
    (if 3 ≤ data.length then readU16LE data 1 else data.getD 1 0))

/-- `parseSystem` (id 0xFF): 6 bytes. -/
def parseSystem (data : List Nat) : Option ParsedCommand :=
  if data.length < 6 then none
  else some (ParsedCommand.system (data.getD 1 0) (data.getD 2 0) (data.getD 3 0)
    (data.getD 4 0) (data.getD 5 0))

/-- `parseCommand`: dispatch on the first byte; the `lastRectColor`
state threads through (only `parseRect` touches it). -/
def parseCommand (lastRectColor : Color) (frame : List Nat) :
    Option ParsedCommand × Color :=
  if frame.length = 0 then (none, lastRectColor)
  else if frame.getD 0 0 = 0xFE then parseRect lastRectColor frame
  else if frame.getD 0 0 = 0xFD then (parseText frame, lastRectColor)
  else if frame.getD 0 0 = 0xFC then (parseWave frame, lastRectColor)
  else if frame.getD 0 0 = 0xFB then (parseJpad frame, lastRectColor)
  else if frame.getD 0 0 = 0xFF then (parseSystem frame, lastRectColor)
  else (none, lastRectColor)

/-- The command id a parse result corresponds to (0 for `none`). -/
def cmdKind : Option ParsedCommand → Nat
  | none => 0
  | some (ParsedCommand.rect ..) => 0xFE
  | some (ParsedCommand.text ..) => 0xFD
  | some (ParsedCommand.wave ..) => 0xFC
  | some (ParsedCommand.jpad ..) => 0xFB
  | some (ParsedCommand.system ..) => 0xFF

/-- C2 counterexample: a 6-byte frame with id 0xFE — length in none of
the table entries 5 | 8 | 9 | 12 — still returns a rectangle command
(the source if-chain falls through to the 1×1 inherited-color form). -/
theorem parse_rect_len6_counterexample :
    (parseCommand ⟨0, 0, 0⟩ [0xFE, 1, 0, 2, 0, 9]).1 =
      some (ParsedCommand.rect 1 2 1 1 ⟨0, 0, 0⟩) ∧
    ([0xFE, 1, 0, 2, 0, 9] : List Nat).length = 6 := by
  decide

/-- C2 (amended): `parseCommand` is total (modelled as a total function
into `Option`) and, for every frame of length ≤ 32 and any parser
state, returns nothing or a command whose kind is characterised by the
first byte and these length thresholds: a rectangle (0xFE) for every
length ≥ 5 (6, 7, 10, 11 behave as the 5-byte form and ≥ 13 as the
12-byte form), text (0xFD) for length ≥ 12, wave (0xFC) ≥ 4, joypad
(0xFB) ≥ 2, system (0xFF) ≥ 6. -/
theorem cmdKind_parseRect (c : Color) (f : List Nat) :
    cmdKind (parseRect c f).1 = if f.length < 5 then 0 else 0xFE := by
  simp only [parseRect]
  split_ifs <;> simp [cmdKind]

theorem cmdKind_parseText (f : List Nat) :
    cmdKind (parseText f) = if f.length < 12 then 0 else 0xFD := by
  unfold parseText
  split_ifs <;> simp_all [cmdKind]

theorem cmdKind_parseWave (f : List Nat) :
    cmdKind (parseWave f) = if f.length < 4 then 0 else 0xFC := by
  unfold parseWave
  split_ifs <;> simp_all [cmdKind]

theorem cmdKind_parseJpad (f : List Nat) :
    cmdKind (parseJpad f) = if f.length < 2 then 0 else 0xFB := by
  unfold parseJpad
  split_ifs <;> simp_all [cmdKind]

theorem cmdKind_parseSystem (f : List Nat) :
    cmdKind (parseSystem f) = if f.length < 6 then 0 else 0xFF := by
  unfold parseSystem
  split_ifs <;> simp_all [cmdKind]

theorem cmdKind_parseCommand (c : Color) (f : List Nat) :
    cmdKind (parseCommand c f).1 =
      if f.length = 0 then 0
      else if f.getD 0 0 = 0xFE then (if f.length < 5 then 0 else 0xFE)
      else if f.getD 0 0 = 0xFD then (if f.length < 12 then 0 else 0xFD)
      else if f.getD 0 0 = 0xFC then (if f.length < 4 then 0 else 0xFC)
      else if f.getD 0 0 = 0xFB then (if f.length < 2 then 0 else 0xFB)
      else if f.getD 0 0 = 0xFF then (if f.length < 6 then 0 else 0xFF)
      else 0 := by
  unfold parseCommand
  by_cases h0 : f.length = 0
  · rw [if_pos h0, if_pos h0]
    rfl
  · rw [if_neg h0, if_neg h0]
    by_cases hE : f.getD 0 0 = 0xFE
    · rw [if_pos hE, if_pos hE, cmdKind_parseRect]
    · rw [if_neg hE, if_neg hE]
      by_cases hD : f.getD 0 0 = 0xFD
      · rw [if_pos hD, if_pos hD, cmdKind_parseText]
      · rw [if_neg hD, if_neg hD]
        by_cases hC : f.getD 0 0 = 0xFC
        · rw [if_pos hC, if_pos hC, cmdKind_parseWave]
        · rw [if_neg hC, if_neg hC]
          by_cases hB : f.getD 0 0 = 0xFB
          · rw [if_pos hB, if_pos hB, cmdKind_parseJpad]
          · rw [if_neg hB, if_neg hB]
            by_cases hF : f.getD 0 0 = 0xFF
            · rw [if_pos hF, if_pos hF, cmdKind_parseSystem]
            · rw [if_neg hF, if_neg hF]
              rfl

theorem parse_length_table (c : Color) (f : List Nat) (hlen : f.length ≤ 32) :
    (cmdKind (parseCommand c f).1 = 0xFE ↔ f.getD 0 0 = 0xFE ∧ 5 ≤ f.length)
  ∧ (cmdKind (parseCommand c f).1 = 0xFD ↔ f.getD 0 0 = 0xFD ∧ 12 ≤ f.length)
  ∧ (cmdKind (parseCommand c f).1 = 0xFC ↔ f.getD 0 0 = 0xFC ∧ 4 ≤ f.length)
  ∧ (cmdKind (parseCommand c f).1 = 0xFB ↔ f.getD 0 0 = 0xFB ∧ 2 ≤ f.length)
  ∧ (cmdKind (parseCommand c f).1 = 0xFF ↔ f.getD 0 0 = 0xFF ∧ 6 ≤ f.length) := by
  rw [cmdKind_parseCommand]
  refine ⟨?_, ?_, ?_, ?_, ?_⟩ <;> split_ifs <;>
    first
    | omega
    | (rw [false_iff]; omega)

/-- C2 witness: a concrete 12-byte text frame parses as a text
command. -/
theorem parse_length_table_witness :
    cmdKind (parseCommand ⟨0, 0, 0⟩
      [0xFD, 65, 16, 0, 20, 0, 255, 255, 255, 0, 0, 0]).1 = 0xFD :=
  (parse_length_table ⟨0, 0, 0⟩ [0xFD, 65, 16, 0, 20, 0, 255, 255, 255, 0, 0, 0]
    (by decide)).2.1.mpr ⟨by decide, by decide⟩

/-- Parse a sequence of frames, threading the `lastRectColor` state
across frames (it is process-global in the source). -/
def parseFrames (c : Color) : List (List Nat) → List (Option ParsedCommand) × Color
  | [] => ([], c)
  | f :: fs =>
    let r1 := parseCommand c f
    let r2 := parseFrames r1.2 fs
    (r1.1 :: r2.1, r2.2)

theorem parseRect_state (c : Color) (f : List Nat)
    (h8 : f.length ≠ 8) (h12 : f.length < 12) :
    (parseRect c f).2 = c := by
  simp only [parseRect]
  split_ifs <;> first | rfl | omega

/-- Any frame that is not a color-carrying rectangle (id 0xFE with
length 8 or ≥ 12) leaves `lastRectColor` untouched. -/
theorem parse_state_preserved (c : Color) (g : List Nat)
    (h : ¬(g.getD 0 0 = 0xFE ∧ (g.length = 8 ∨ 12 ≤ g.length))) :
    (parseCommand c g).2 = c := by
  unfold parseCommand
  split_ifs with h0 hE <;> try rfl
  exact parseRect_state c g (fun h8 => h ⟨hE, Or.inl h8⟩)
    (by by_contra hc; exact h ⟨hE, Or.inr (by omega)⟩)

/-- A color-carrying rectangle frame (length 8 or ≥ 12) sets
`lastRectColor` to the carried color. -/
theorem parse_sets_color (c c1 : Color) (f : List Nat)
    (hf : f.getD 0 0 = 0xFE)
    (hset : (f.length = 8 ∧ readColor f 5 = c1) ∨ (12 ≤ f.length ∧ readColor f 9 = c1)) :
    (parseCommand c f).2 = c1 := by
  have h0 : ¬f.length = 0 := by rcases hset with ⟨h, _⟩ | ⟨h, _⟩ <;> omega
  unfold parseCommand
  rw [if_neg h0, if_pos hf]
  simp only [parseRect]
  rcases hset with ⟨h, hcol⟩ | ⟨h, hcol⟩ <;> split_ifs <;> first | exact hcol | omega

/-- A 5- or 9-byte rectangle frame parses to a rectangle carrying the
current `lastRectColor`, and leaves the state unchanged. -/
theorem parseCommand_rect59 (c : Color) (g : List Nat)
    (hg : g.getD 0 0 = 0xFE) (hlen : g.length = 5 ∨ g.length = 9) :
    (parseCommand c g).1 = some (ParsedCommand.rect (readU16LE g 1) (readU16LE g 3)
      (if g.length = 5 then 1 else readU16LE g 5)
      (if g.length = 5 then 1 else readU16LE g 7) c) := by
  have h0 : ¬g.length = 0 := by omega
  unfold parseCommand
  rw [if_neg h0, if_pos hg]
  simp only [parseRect]
  rcases hlen with h | h <;> rw [h] <;> norm_num

/-- Parsing frames none of which carries a rectangle color keeps the
state constant, and each frame parses at that constant state. -/
theorem parseFrames_state_const (c : Color) (fs : List (List Nat))
    (h : ∀ g ∈ fs, ¬(g.getD 0 0 = 0xFE ∧ (g.length = 8 ∨ 12 ≤ g.length))) :
    parseFrames c fs = (fs.map (fun g => (parseCommand c g).1), c) := by
  induction fs with
  | nil => rfl
  | cons g rest ih =>
    have hg := h g (by simp)
    have hrest : ∀ g' ∈ rest, ¬(g'.getD 0 0 = 0xFE ∧ (g'.length = 8 ∨ 12 ≤ g'.length)) :=
      fun g' hg' => h g' (by simp [hg'])
    simp only [parseFrames, parse_state_preserved c g hg, ih hrest, List.map_cons]

/-- C5: after a color-carrying rectangle frame (8 bytes with color at
offset 5, or ≥ 12 bytes with color at offset 9) sets `lastRectColor` to
c1, parsing any run of frames none of which carries a new rectangle
color happens entirely at state c1, and every 5- or 9-byte rectangle
frame in the run yields a rectangle whose color is exactly c1. -/
theorem rect_color_persistence (c0 c1 : Color) (f0 : List Nat) (fs : List (List Nat))
    (hf0 : f0.getD 0 0 = 0xFE)
    (hset : (f0.length = 8 ∧ readColor f0 5 = c1) ∨ (12 ≤ f0.length ∧ readColor f0 9 = c1))
    (hmid : ∀ g ∈ fs, ¬(g.getD 0 0 = 0xFE ∧ (g.length = 8 ∨ 12 ≤ g.length))) :
    parseFrames c0 (f0 :: fs) =
      ((parseCommand c0 f0).1 :: fs.map (fun g => (parseCommand c1 g).1), c1) ∧
    ∀ g ∈ fs, g.getD 0 0 = 0xFE → (g.length = 5 ∨ g.length = 9) →
      (parseCommand c1 g).1 = some (ParsedCommand.rect (readU16LE g 1) (readU16LE g 3)
        (if g.length = 5 then 1 else readU16LE g 5)
        (if g.length = 5 then 1 else readU16LE g 7) c1) := by
  constructor
  · simp only [parseFrames, parse_sets_color c0 c1 f0 hf0 hset,
      parseFrames_state_const c1 fs hmid]
  · intro g _ hg hlen
    exact parseCommand_rect59 c1 g hg hlen

/-- C5 witness: an 8-byte rectangle carrying red, followed by a 5-byte
and a 9-byte rectangle, which both come out red. -/
theorem rect_color_persistence_witness :
    parseFrames ⟨0, 0, 0⟩ [[0xFE, 10, 0, 20, 0, 255, 0, 0], [0xFE, 1, 0, 2, 0],
        [0xFE, 3, 0, 4, 0, 7, 0, 8, 0]] =
      ([some (ParsedCommand.rect 10 20 1 1 ⟨255, 0, 0⟩),
        some (ParsedCommand.rect 1 2 1 1 ⟨255, 0, 0⟩),
        some (ParsedCommand.rect 3 4 7 8 ⟨255, 0, 0⟩)], ⟨255, 0, 0⟩) := by
  have h := rect_color_persistence ⟨0, 0, 0⟩ ⟨255, 0, 0⟩
    [0xFE, 10, 0, 20, 0, 255, 0, 0] [[0xFE, 1, 0, 2, 0], [0xFE, 3, 0, 4, 0, 7, 0, 8, 0]]
    (by decide) (Or.inl ⟨by decide, by decide⟩) (by decide)
  rw [h.1]
  decide

/-! ## Display delta cache (DisplayDelta) -/

/-- `Map.get`: first (hence most recent) entry for the key, if any. -/
def cacheGet {K V : Type} [DecidableEq K] (m : List (K × V)) (k : K) : Option V :=
  (m.find? (fun p => decide (p.1 = k))).map (fun p => p.2)

/-- `Map.set`: replace the entry for the key. -/
def cacheSet {K V : Type} [DecidableEq K] (m : List (K × V)) (k : K) (v : V) :
    List (K × V) :=
  (k, v) :: m.filter (fun p => decide (p.1 ≠ k))

/-- `DisplayDelta` state: the two caches and the statistics counters.
The text cache is keyed by (x, y) and the rect cache by
(x, y, width, height), mirroring the `T:x:y` / `R:x:y:w:h` hash keys. -/
structure DisplayDelta where
  textCache : List ((Nat × Nat) × ParsedCommand)
  rectCache : List ((Nat × Nat × Nat × Nat) × ParsedCommand)
  sentCount : Nat
  skippedCount : Nat
deriving DecidableEq, Repr

def deltaInit : DisplayDelta := ⟨[], [], 0, 0⟩

/-- `textEqual`: char code, fg and bg all match. -/
def textEqual : ParsedCommand → ParsedCommand → Bool
  | ParsedCommand.text _ cc1 _ _ fg1 bg1, ParsedCommand.text _ cc2 _ _ fg2 bg2 =>
    decide (cc1 = cc2 ∧ fg1 = fg2 ∧ bg1 = bg2)
  | _, _ => false

/-- `rectEqual`: same position/size must have same color. -/
def rectEqual : ParsedCommand → ParsedCommand → Bool
  | ParsedCommand.rect _ _ _ _ c1, ParsedCommand.rect _ _ _ _ c2 => decide (c1 = c2)
  | _, _ => false

def SCREEN_CLEAR_THRESHOLD : Nat := 320 * 200

/-- `isScreenClear`: large rect covering most of the screen. -/
def isScreenClear (width height : Nat) : Bool :=
  decide (SCREEN_CLEAR_THRESHOLD ≤ width * height)

/-- `DisplayDelta.checkText`. -/
def checkText (d : DisplayDelta) (cmd : ParsedCommand) (x y : Nat) :
    Bool × DisplayDelta :=
  match cacheGet d.textCache (x, y) with
  | some cached =>
    if textEqual cached cmd then
      (false, { d with skippedCount := d.skippedCount + 1 })
    else
      (true, { d with textCache := cacheSet d.textCache (x, y) cmd,
                      sentCount := d.sentCount + 1 })
  | none =>
    (true, { d with textCache := cacheSet d.textCache (x, y) cmd,
                    sentCount := d.sentCount + 1 })

/-- `DisplayDelta.checkRect`, including screen-clear detection. -/
def checkRect (d : DisplayDelta) (cmd : ParsedCommand) (x y width height : Nat) :
    Bool × DisplayDelta :=
  if isScreenClear width height then
    (true, { d with textCache := [], rectCache := [], sentCount := d.sentCount + 1 })
  else
    match cacheGet d.rectCache (x, y, width, height) with
    | some cached =>
      if rectEqual cached cmd then
        (false, { d with skippedCount := d.skippedCount + 1 })
      else
        (true, { d with rectCache := cacheSet d.rectCache (x, y, width, height) cmd,
                        sentCount := d.sentCount + 1 })
    | none =>
      (true, { d with rectCache := cacheSet d.rectCache (x, y, width, height) cmd,
                      sentCount := d.sentCount + 1 })

/-- `DisplayDelta.shouldSend`: wave/jpad/system always sent; text and
rect go through their caches. -/
def shouldSend (d : DisplayDelta) (cmd : ParsedCommand) : Bool × DisplayDelta :=
  match cmd with
  | ParsedCommand.wave _ _ => (true, { d with sentCount := d.sentCount + 1 })
  | ParsedCommand.jpad _ => (true, { d with sentCount := d.sentCount + 1 })
  | ParsedCommand.system _ _ _ _ _ => (true, { d with sentCount := d.sentCount + 1 })
  | ParsedCommand.text _ _ x y _ _ => checkText d cmd x y
  | ParsedCommand.rect x y width height _ => checkRect d cmd x y width height

/-- `DisplayDelta.getStats`. -/
structure DeltaStats where
  sent : Nat
  skipped : Nat
  ratio : ℚ
deriving DecidableEq, Repr

def getStats (d : DisplayDelta) : DeltaStats :=
  let total := d.sentCount + d.skippedCount
  ⟨d.sentCount, d.skippedCount, if 0 < total then (d.sentCount : ℚ) / total else 1⟩

/-- `DisplayDelta.reset`. -/
def deltaReset (d : DisplayDelta) : DisplayDelta :=
  { d with textCache := [], rectCache := [] }

def isTextCmd : ParsedCommand → Bool
  | ParsedCommand.text _ _ _ _ _ _ => true
  | _ => false

def isRectCmd : ParsedCommand → Bool
  | ParsedCommand.rect _ _ _ _ _ => true
  | _ => false

/-- Whether a command is a screen-clear rectangle. -/
def cmdIsScreenClear : ParsedCommand → Bool
  | ParsedCommand.rect _ _ width height _ => isScreenClear width height
  | _ => false

theorem cacheGet_nil {K V : Type} [DecidableEq K] (k : K) :
    cacheGet ([] : List (K × V)) k = none := rfl

theorem cacheGet_cacheSet {K V : Type} [DecidableEq K]
    (m : List (K × V)) (k : K) (v : V) :
    cacheGet (cacheSet m k v) k = some v := by
  simp [cacheGet, cacheSet]

theorem shouldSend_second_text (d : DisplayDelta) (ch cc x y : Nat) (fg bg : Color) :
    (shouldSend (shouldSend d (ParsedCommand.text ch cc x y fg bg)).2
      (ParsedCommand.text ch cc x y fg bg)).1 = false := by
  simp only [shouldSend, checkText]
  cases h : cacheGet d.textCache (x, y) with
  | none => simp [cacheGet_cacheSet, textEqual]
  | some cached =>
    by_cases he : textEqual cached (ParsedCommand.text ch cc x y fg bg) = true
    · simp [he, h]
    · simp only [if_neg he]
      simp [cacheGet_cacheSet, textEqual]

theorem shouldSend_second_rect (d : DisplayDelta) (x y w h : Nat) (c : Color)
    (hsc : isScreenClear w h = false) :
    (shouldSend (shouldSend d (ParsedCommand.rect x y w h c)).2
      (ParsedCommand.rect x y w h c)).1 = false := by
  have hsc' : ¬(isScreenClear w h = true) := by simp [hsc]
  simp only [shouldSend, checkRect, if_neg hsc']
  cases hg : cacheGet d.rectCache (x, y, w, h) with
  | none => simp [hsc, cacheGet_cacheSet, rectEqual]
  | some cached =>
    by_cases he : rectEqual cached (ParsedCommand.rect x y w h c) = true
    · simp [he, hg, hsc]
    · simp only [if_neg he]
      simp [hsc, cacheGet_cacheSet, rectEqual]

/-- C3 (amended): the second of two consecutive `shouldSend` calls with
the same text command, or the same non-screen-clear rectangle, returns
false; wave/jpad/system commands and screen-clear rectangles return
true on every call; any command is sent from the fresh cache; each call
increments exactly one of sent/skipped, so sent + skipped equals the
number of calls; `getStats` reports those counters and their ratio
sent/total when total > 0. -/
theorem delta_idempotence_and_stats (d : DisplayDelta) (cmd : ParsedCommand) :
    ((isTextCmd cmd = true ∨ (isRectCmd cmd = true ∧ cmdIsScreenClear cmd = false)) →
        (shouldSend (shouldSend d cmd).2 cmd).1 = false)
  ∧ ((isTextCmd cmd = false ∧ isRectCmd cmd = false) →
        (shouldSend d cmd).1 = true ∧ (shouldSend (shouldSend d cmd).2 cmd).1 = true)
  ∧ (cmdIsScreenClear cmd = true →
        (shouldSend d cmd).1 = true ∧ (shouldSend (shouldSend d cmd).2 cmd).1 = true)
  ∧ (shouldSend deltaInit cmd).1 = true
  ∧ ((shouldSend d cmd).2.sentCount + (shouldSend d cmd).2.skippedCount
        = d.sentCount + d.skippedCount + 1)
  ∧ (getStats d).sent = d.sentCount
  ∧ (getStats d).skipped = d.skippedCount
  ∧ (0 < d.sentCount + d.skippedCount →
        (getStats d).ratio = (d.sentCount : ℚ) / ((d.sentCount : ℚ) + d.skippedCount)) := by
  refine ⟨?_, ?_, ?_, ?_, ?_, ?_, ?_, ?_⟩
  · intro hc
    cases cmd with
    | text ch cc x y fg bg => exact shouldSend_second_text d ch cc x y fg bg
    | rect x y w h c =>
      have hsc : isScreenClear w h = false := by
        rcases hc with hc | hc
        · simp [isTextCmd] at hc
        · simpa [cmdIsScreenClear] using hc.2
      exact shouldSend_second_rect d x y w h c hsc
    | wave c dat => simp [isTextCmd, isRectCmd, cmdIsScreenClear] at hc
    | jpad s => simp [isTextCmd, isRectCmd, cmdIsScreenClear] at hc
    | system a b e f g => simp [isTextCmd, isRectCmd, cmdIsScreenClear] at hc
  · intro hc
    cases cmd with
    | text ch cc x y fg bg => simp [isTextCmd] at hc
    | rect x y w h c => simp [isRectCmd] at hc
    | wave c dat => exact ⟨rfl, rfl⟩
    | jpad s => exact ⟨rfl, rfl⟩
    | system a b e f g => exact ⟨rfl, rfl⟩
  · intro hc
    cases cmd with
    | rect x y w h c =>
      have hsc : isScreenClear w h = true := by simpa [cmdIsScreenClear] using hc
      constructor <;> simp [shouldSend, checkRect, hsc]
    | text ch cc x y fg bg => simp [cmdIsScreenClear] at hc
    | wave c dat => simp [cmdIsScreenClear] at hc
    | jpad s => simp [cmdIsScreenClear] at hc
    | system a b e f g => simp [cmdIsScreenClear] at hc
  · cases cmd with
    | text ch cc x y fg bg => simp [shouldSend, checkText, deltaInit, cacheGet]
    | rect x y w h c =>
      by_cases hsc : isScreenClear w h = true
      · simp [shouldSend, checkRect, hsc]
      · simp only [Bool.not_eq_true] at hsc
        simp [shouldSend, checkRect, hsc, deltaInit, cacheGet]
    | wave c dat => rfl
    | jpad s => rfl
    | system a b e f g => rfl
  · cases cmd with
    | text ch cc x y fg bg =>
      simp only [shouldSend, checkText]
      cases hg : cacheGet d.textCache (x, y) with
      | none =>
        simp
        omega
      | some cached =>
        by_cases he : textEqual cached (ParsedCommand.text ch cc x y fg bg) = true
        · simp [he]
          omega
        · simp only [if_neg he]
          omega
    | rect x y w h c =>
      by_cases hsc : isScreenClear w h = true
      · simp [shouldSend, checkRect, hsc]
        omega
      · simp only [Bool.not_eq_true] at hsc
        have hsc' : ¬(isScreenClear w h = true) := by simp [hsc]
        simp only [shouldSend, checkRect, if_neg hsc']
        cases hg : cacheGet d.rectCache (x, y, w, h) with
        | none =>
          simp
          omega
        | some cached =>
          by_cases he : rectEqual cached (ParsedCommand.rect x y w h c) = true
          · simp [he]
            omega
          · simp only [if_neg he]
            omega
    | wave c dat =>
      simp [shouldSend]
      omega
    | jpad s =>
      simp [shouldSend]
      omega
    | system a b e f g =>
      simp [shouldSend]
      omega
  · rfl
  · rfl
  · intro ht
    have : (0 : Nat) < d.sentCount + d.skippedCount := ht
    simp [getStats, this]

/-- C3 counterexample: a wave command is never cached, so the second of
two consecutive `shouldSend` calls with the identical wave command
returns true, not false as the claim states for every command. -/
theorem delta_wave_twice_counterexample :
    (shouldSend (shouldSend deltaInit (ParsedCommand.wave ⟨0, 0, 0⟩ [])).2
      (ParsedCommand.wave ⟨0, 0, 0⟩ [])).1 = true := by
  decide

/-- C3 witness: a concrete text command is suppressed on its second
presentation. -/
theorem delta_idempotence_and_stats_witness :
    (shouldSend (shouldSend deltaInit
        (ParsedCommand.text 65 65 16 20 ⟨255, 255, 255⟩ ⟨0, 0, 0⟩)).2
      (ParsedCommand.text 65 65 16 20 ⟨255, 255, 255⟩ ⟨0, 0, 0⟩)).1 = false :=
  (delta_idempotence_and_stats deltaInit
    (ParsedCommand.text 65 65 16 20 ⟨255, 255, 255⟩ ⟨0, 0, 0⟩)).1 (Or.inl rfl)

/-- C4: a rectangle whose area meets the 320·200 threshold is admitted
(returns true), empties both caches, and afterwards any text command
and any rectangle command are admitted. -/
theorem delta_screen_clear_reset (d : DisplayDelta) (x y w h : Nat) (c : Color)
    (harea : 320 * 200 ≤ w * h) :
    (shouldSend d (ParsedCommand.rect x y w h c)).1 = true ∧
    (shouldSend d (ParsedCommand.rect x y w h c)).2.textCache = [] ∧
    (shouldSend d (ParsedCommand.rect x y w h c)).2.rectCache = [] ∧
    (∀ tcmd, isTextCmd tcmd = true →
      (shouldSend (shouldSend d (ParsedCommand.rect x y w h c)).2 tcmd).1 = true) ∧
    (∀ rcmd, isRectCmd rcmd = true →
      (shouldSend (shouldSend d (ParsedCommand.rect x y w h c)).2 rcmd).1 = true) := by
  have hsc : isScreenClear w h = true := by
    simp only [isScreenClear, SCREEN_CLEAR_THRESHOLD, decide_eq_true_eq]
    omega
  refine ⟨?_, ?_, ?_, ?_, ?_⟩
  · simp [shouldSend, checkRect, hsc]
  · simp [shouldSend, checkRect, hsc]
  · simp [shouldSend, checkRect, hsc]
  · intro tcmd ht
    cases tcmd with
    | text ch cc tx ty fg bg => simp [shouldSend, checkRect, hsc, checkText, cacheGet]
    | rect a b e f g => simp [isTextCmd] at ht
    | wave a b => simp [isTextCmd] at ht
    | jpad a => simp [isTextCmd] at ht
    | system a b e f g => simp [isTextCmd] at ht
  · intro rcmd hr
    cases rcmd with
    | rect rx ry rw rh rc =>
      by_cases hsc2 : isScreenClear rw rh = true
      · simp [shouldSend, checkRect, hsc, hsc2]
      · simp only [shouldSend, checkRect, if_pos hsc, if_neg hsc2]
        simp [cacheGet]
    | text a b e f g hh => simp [isRectCmd] at hr
    | wave a b => simp [isRectCmd] at hr
    | jpad a => simp [isRectCmd] at hr
    | system a b e f g => simp [isRectCmd] at hr

/-- C4 witness: a 320×200 rectangle from the fresh state, followed by a
concrete text command and a concrete small rectangle, all admitted. -/
theorem delta_screen_clear_reset_witness :
    (shouldSend deltaInit (ParsedCommand.rect 0 0 320 200 ⟨0, 0, 0⟩)).1 = true ∧
    (shouldSend (shouldSend deltaInit (ParsedCommand.rect 0 0 320 200 ⟨0, 0, 0⟩)).2
      (ParsedCommand.text 65 65 16 20 ⟨255, 255, 255⟩ ⟨0, 0, 0⟩)).1 = true ∧
    (shouldSend (shouldSend deltaInit (ParsedCommand.rect 0 0 320 200 ⟨0, 0, 0⟩)).2
      (ParsedCommand.rect 5 5 2 2 ⟨1, 2, 3⟩)).1 = true := by
  have h := delta_screen_clear_reset deltaInit 0 0 320 200 ⟨0, 0, 0⟩ (by norm_num)
  exact ⟨h.1, h.2.2.2.1 _ rfl, h.2.2.2.2 _ rfl⟩

/-! ## Text grid (TextBuffer) -/

def SCREEN_WIDTH : Nat := 320
def SCREEN_HEIGHT : Nat := 240
def CHAR_WIDTH : Nat := 8
def CHAR_HEIGHT : Nat := 10
def COLS : Nat := 40
def ROWS : Nat := 24

def BLACK : Color := ⟨0, 0, 0⟩
def WHITE : Color := ⟨255, 255, 255⟩

def HIGHLIGHT_THRESHOLD : Nat := 200

/-- `isHighlight`: cursor-colored foreground. -/
def isHighlight (c : Color) : Bool :=
  decide (HIGHLIGHT_THRESHOLD < c.r ∧ HIGHLIGHT_THRESHOLD < c.g)

/-- One character cell; `char` is the char code (space = 0x20). -/
structure TextCell where
  char : Nat
  fg : Color
  bg : Color
deriving DecidableEq, Repr

def emptyCell : TextCell := ⟨32, WHITE, BLACK⟩

/-- `TextBuffer`: the 40×24 grid (as a function on row/column indices,
only indices < ROWS/COLS are ever written) plus the cursor. -/
structure TextBuffer where
  cells : Nat → Nat → TextCell
  cursorRow : Nat
  cursorCol : Nat

def textBufferInit : TextBuffer := ⟨fun _ _ => emptyCell, 0, 0⟩

/-- `TextBuffer.applyText`: write the cell at (y / CHAR_HEIGHT,
x / CHAR_WIDTH) when in range; update the cursor on highlight fg;
otherwise leave the buffer untouched. -/
def applyText (tb : TextBuffer) (ch x y : Nat) (fg bg : Color) : TextBuffer :=
  let col := x / CHAR_WIDTH
  let row := y / CHAR_HEIGHT
  if row < ROWS ∧ col < COLS then
    { cells := fun r c => if r = row ∧ c = col then ⟨ch, fg, bg⟩ else tb.cells r c
      cursorRow := if isHighlight fg then row else tb.cursorRow
      cursorCol := if isHighlight fg then col else tb.cursorCol }
  else tb

/-- C6: a text command at pixel position (x, y) with y/10 ∉ [0,24) or
x/8 ∉ [0,40) leaves every cell unchanged; otherwise exactly the cell at
row y/10, column x/8 is overwritten wholesale with the command's char,
fg and bg, and every other cell is unchanged. -/
theorem textgrid_bounds (tb : TextBuffer) (ch x y : Nat) (fg bg : Color) :
    (¬(y / 10 < 24 ∧ x / 8 < 40) → (applyText tb ch x y fg bg).cells = tb.cells)
  ∧ ((y / 10 < 24 ∧ x / 8 < 40) →
      (applyText tb ch x y fg bg).cells (y / 10) (x / 8) = ⟨ch, fg, bg⟩ ∧
      ∀ r c, ¬(r = y / 10 ∧ c = x / 8) →
        (applyText tb ch x y fg bg).cells r c = tb.cells r c) := by
  constructor
  · intro hout
    simp only [applyText, CHAR_WIDTH, CHAR_HEIGHT, ROWS, COLS]
    rw [if_neg hout]
  · intro hin
    constructor
    · simp only [applyText, CHAR_WIDTH, CHAR_HEIGHT, ROWS, COLS]
      rw [if_pos hin]
      simp
    · intro r c hrc
      simp only [applyText, CHAR_WIDTH, CHAR_HEIGHT, ROWS, COLS]
      rw [if_pos hin]
      simp only []
      rw [if_neg hrc]

/-- C6 witness: y = 240 is out of range (row 24) and leaves the fresh
grid unchanged; (x, y) = (16, 20) overwrites exactly cell (2, 2). -/
theorem textgrid_bounds_witness :
    (applyText textBufferInit 65 0 240 WHITE BLACK).cells = textBufferInit.cells ∧
    (applyText textBufferInit 65 16 20 WHITE BLACK).cells 2 2 = ⟨65, WHITE, BLACK⟩ ∧
    (applyText textBufferInit 65 16 20 WHITE BLACK).cells 0 0 = textBufferInit.cells 0 0 := by
  refine ⟨(textgrid_bounds textBufferInit 65 0 240 WHITE BLACK).1 (by decide), ?_, ?_⟩
  · exact ((textgrid_bounds textBufferInit 65 16 20 WHITE BLACK).2 (by decide)).1
  · exact ((textgrid_bounds textBufferInit 65 16 20 WHITE BLACK).2 (by decide)).2 0 0 (by decide)

/-! ## Audio ring buffer (src/audio/ring-buffer.ts) -/

/-- `Uint8Array.set(src, offset)`: overwrite `dst` with `src` starting
at `offset` (callers keep it in range). -/
def listSet (dst : List Nat) (offset : Nat) (src : List Nat) : List Nat :=
  dst.take offset ++ src ++ dst.drop (offset + src.length)

/-- `RingBuffer` state: backing bytes, read/write positions, stored
count, capacity and the overwrite policy flag. -/
structure RingBuffer where
  buffer : List Nat
  readPos : Nat
  writePos : Nat
  count : Nat
  size : Nat
  allowOverwrite : Bool
deriving DecidableEq, Repr

def ringInit (size : Nat) (allowOverwrite : Bool) : RingBuffer :=
  ⟨List.replicate size 0, 0, 0, 0, size, allowOverwrite⟩

/-- The common tail of `push`: write `data` at `writePos`, wrapping in
at most two segments, then advance `writePos` and `count`. -/
def pushWrite (rb : RingBuffer) (data : List Nat) : RingBuffer :=
  let len := data.length
  let firstChunk := min len (rb.size - rb.writePos)
  let b1 := listSet rb.buffer rb.writePos (data.take firstChunk)
  let b2 := if firstChunk < len then listSet b1 0 (data.drop firstChunk) else b1
  { rb with buffer := b2, writePos := (rb.writePos + len) % rb.size,
            count := rb.count + len }

/-- `RingBuffer.push`: returns the new state and the bytes written, or
-1 on overflow when overwriting is disabled. -/
def push (rb : RingBuffer) (data : List Nat) : RingBuffer × Int :=
  let len := data.length
  if rb.size < len then
    if rb.allowOverwrite then
      ({ rb with buffer := listSet rb.buffer 0 (data.drop (len - rb.size)),
                 readPos := 0, writePos := 0, count := rb.size }, (len : Int))
    else (rb, -1)
  else if rb.size - rb.count < len then
    if !rb.allowOverwrite then (rb, -1)
    else
      let toDrop := len - (rb.size - rb.count)
      (pushWrite { rb with readPos := (rb.readPos + toDrop) % rb.size,
                           count := rb.count - toDrop } data, (len : Int))
  else (pushWrite rb data, (len : Int))

/-- `RingBuffer.pop`: read up to `outLen` bytes from `readPos`,
wrapping in at most two segments; returns the new state and the bytes
read. -/
def pop (rb : RingBuffer) (outLen : Nat) : RingBuffer × List Nat :=
  let toRead := min outLen rb.count
  if toRead = 0 then (rb, [])
  else
    let firstChunk := min toRead (rb.size - rb.readPos)
    let part1 := (rb.buffer.drop rb.readPos).take firstChunk
    let part2 := if firstChunk < toRead then rb.buffer.take (toRead - firstChunk) else []
    ({ rb with readPos := (rb.readPos + toRead) % rb.size, count := rb.count - toRead },
      part1 ++ part2)

/-- C7: with overwriting enabled, pushing a block longer than the
capacity keeps exactly the trailing `size` bytes (read and write
positions reset, buffer full), returns the block's length, and a
subsequent pop of `size` bytes yields those trailing bytes in order. -/
theorem ring_overwrite_trailing (rb : RingBuffer) (data : List Nat)
    (hov : rb.allowOverwrite = true) (hlen : rb.size < data.length)
    (hsz : 0 < rb.size) (hbuf : rb.buffer.length = rb.size) :
    push rb data =
      ({ rb with buffer := data.drop (data.length - rb.size),
                 readPos := 0, writePos := 0, count := rb.size }, (data.length : Int)) ∧
    (pop (push rb data).1 rb.size).2 = data.drop (data.length - rb.size) := by
  have hdl : (data.drop (data.length - rb.size)).length = rb.size := by
    simp [List.length_drop]
    omega
  have hpush : push rb data =
      ({ rb with buffer := data.drop (data.length - rb.size),
                 readPos := 0, writePos := 0, count := rb.size }, (data.length : Int)) := by
    simp only [push, if_pos hlen, hov, if_pos rfl, listSet]
    simp [hdl, hbuf]
  refine ⟨hpush, ?_⟩
  rw [hpush]
  simp only [pop]
  rw [if_neg (by omega)]
  simp [hdl, hsz, List.take_of_length_le (le_of_eq hdl)]

/-- C7 witness (scenario S6 in miniature): push 5 bytes into a 3-byte
overwriting ring buffer, then pop 3 bytes — the popped bytes equal the
last 3 bytes pushed, in order, and push reported 5 bytes written. -/
theorem ring_overwrite_trailing_witness :
    (pop (push (ringInit 3 true) [1, 2, 3, 4, 5]).1 3).2 = [3, 4, 5] ∧
    (push (ringInit 3 true) [1, 2, 3, 4, 5]).2 = 5 := by
  have h := ring_overwrite_trailing (ringInit 3 true) [1, 2, 3, 4, 5]
    rfl (by decide) (by decide) (by decide)
  exact ⟨h.2, by rw [h.1]; rfl⟩

/-- C10: with overwriting disabled, a push whose data exceeds the
capacity or the available space returns -1 and leaves the state
exactly as it was. -/
theorem ring_reject_atomic (rb : RingBuffer) (data : List Nat)
    (hov : rb.allowOverwrite = false)
    (hfit : rb.size < data.length ∨ rb.size - rb.count < data.length) :
    push rb data = (rb, -1) := by
  simp only [push, hov]
  rcases hfit with h | h
  · rw [if_pos h]
    simp
  · by_cases h1 : rb.size < data.length
    · rw [if_pos h1]
      simp
    · rw [if_neg h1, if_pos h]
      simp

/-- C10 witness: pushing 3 bytes into a fresh non-overwriting 2-byte
buffer is rejected with -1 and the state is untouched. -/
theorem ring_reject_atomic_witness :
    push (ringInit 2 false) [7, 8, 9] = (ringInit 2 false, -1) :=
  ring_reject_atomic (ringInit 2 false) [7, 8, 9] rfl (Or.inl (by decide))

/-! ## TCP packet framing (src/server/tcp-proxy.ts) -/

def DISPLAY_HEADER : Nat := 0x44
def AUDIO_HEADER : Nat := 0x41

/-- A display packet: `0x44 <len:u16 BE> <bytes>` (as built by
`broadcast`). -/
def mkDisplayPacket (data : List Nat) : List Nat :=
  DISPLAY_HEADER :: data.length / 256 :: data.length % 256 :: data

/-- An audio packet: `0x41 <len:u16 BE> <bytes>` (as built by
`broadcastAudio`). -/
def mkAudioPacket (pcm : List Nat) : List Nat :=
  AUDIO_HEADER :: pcm.length / 256 :: pcm.length % 256 :: pcm

/-- `flushBatch`: the single write per client is the concatenation of
the batched display packets. -/
def flushBatchBytes (chunks : List (List Nat)) : List Nat :=
  (chunks.map mkDisplayPacket).flatten

/-- Checks that a bytestring is a concatenation of
`tag(1) || length(2, BE) || payload(length)` records with
tag ∈ {0x44, 0x41}. -/
def checkFrames (bs : List Nat) : Bool :=
  match bs with
  | [] => true
  | tag :: hi :: lo :: rest =>
    decide (tag = DISPLAY_HEADER ∨ tag = AUDIO_HEADER) &&
    decide (hi * 256 + lo ≤ rest.length) &&
    checkFrames (rest.drop (hi * 256 + lo))
  | _ => false
termination_by bs.length
decreasing_by
  simp only [List.length_cons, List.length_drop]
  omega

theorem checkFrames_nil : checkFrames [] = true := by
  rw [checkFrames]

theorem checkFrames_packet (tag : Nat) (payload rest : List Nat)
    (htag : tag = DISPLAY_HEADER ∨ tag = AUDIO_HEADER)
    (hlen : payload.length ≤ 65535) :
    checkFrames (tag :: payload.length / 256 :: payload.length % 256 ::
      (payload ++ rest)) = checkFrames rest := by
  rw [checkFrames]
  have hmod : payload.length / 256 * 256 + payload.length % 256 = payload.length := by
    omega
  rw [hmod, List.drop_left payload rest]
  simp [htag, List.length_append, Nat.le_add_right]

/-- C8: every bytestring the TCP broadcaster writes to a client — a
batched flush of display packets (each payload ≤ 65535 bytes, the
largest length `writeUInt16BE` accepts) or a single immediate audio
packet — parses as a concatenation of `tag(1) || length(2, BE) ||
payload(length)` records with tag ∈ {0x44, 0x41}. -/
theorem tcp_packet_framing :
    (∀ chunks : List (List Nat), (∀ c ∈ chunks, c.length ≤ 65535) →
      checkFrames (flushBatchBytes chunks) = true)
  ∧ (∀ pcm : List Nat, pcm.length ≤ 65535 → checkFrames (mkAudioPacket pcm) = true) := by
  have hpkt : ∀ (tag : Nat), (tag = DISPLAY_HEADER ∨ tag = AUDIO_HEADER) →
      ∀ (payload rest : List Nat), payload.length ≤ 65535 →
      checkFrames rest = true →
      checkFrames (tag :: payload.length / 256 :: payload.length % 256 ::
        (payload ++ rest)) = true := by
    intro tag htag payload rest hlen hrest
    rw [checkFrames_packet tag payload rest htag hlen, hrest]
  constructor
  · intro chunks hch
    induction chunks with
    | nil => exact checkFrames_nil
    | cons c rest ih =>
      have hc := hch c (by simp)
      have hrest : checkFrames (flushBatchBytes rest) = true :=
        ih (fun c' hc' => hch c' (by simp [hc']))
      simpa [flushBatchBytes, mkDisplayPacket] using
        hpkt DISPLAY_HEADER (Or.inl rfl) c (flushBatchBytes rest) hc hrest
  · intro pcm hlen
    have := hpkt AUDIO_HEADER (Or.inr rfl) pcm [] hlen checkFrames_nil
    simpa [mkAudioPacket] using this

/-- C8 witness: a concrete two-chunk flush and a concrete audio packet
both pass the framing check. -/
theorem tcp_packet_framing_witness :
    checkFrames (flushBatchBytes [[1, 2], [3]]) = true ∧
    checkFrames (mkAudioPacket [5, 6, 7]) = true :=
  ⟨tcp_packet_framing.1 [[1, 2], [3]] (by decide),
   tcp_packet_framing.2 [5, 6, 7] (by decide)⟩

/-! ## Button bitmask codec (src/input/keys.ts, src/state/types.ts) -/

inductive M8KeyName where
  | left
  | up
  | down
  | right
  | shift
  | start
  | opt
  | edit
deriving DecidableEq, Repr

/-- `KEY_MAP` / `M8Key`: key name to bitmask. -/
def keyToBitmask : M8KeyName → Nat
  | M8KeyName.left => 0x80
  | M8KeyName.up => 0x40
  | M8KeyName.down => 0x20
  | M8KeyName.right => 0x04
  | M8KeyName.shift => 0x10
  | M8KeyName.start => 0x08
  | M8KeyName.opt => 0x02
  | M8KeyName.edit => 0x01

/-- `keysToBitmask`: OR of the individual masks. -/
def keysToBitmask (keys : List M8KeyName) : Nat :=
  keys.foldl (fun mask k => mask ||| keyToBitmask k) 0

/-- `bitmaskToKeys`: test each bit, in the source's push order. -/
def bitmaskToKeys (bitmask : Nat) : List M8KeyName :=
  (if bitmask &&& 0x80 ≠ 0 then [M8KeyName.left] else []) ++
  (if bitmask &&& 0x40 ≠ 0 then [M8KeyName.up] else []) ++
  (if bitmask &&& 0x20 ≠ 0 then [M8KeyName.down] else []) ++
  (if bitmask &&& 0x04 ≠ 0 then [M8KeyName.right] else []) ++
  (if bitmask &&& 0x10 ≠ 0 then [M8KeyName.shift] else []) ++
  (if bitmask &&& 0x08 ≠ 0 then [M8KeyName.start] else []) ++
  (if bitmask &&& 0x02 ≠ 0 then [M8KeyName.opt] else []) ++
  (if bitmask &&& 0x01 ≠ 0 then [M8KeyName.edit] else [])

set_option maxRecDepth 8192 in
/-- C9: for every bitmask 0..255 the round trip
`keysToBitmask (bitmaskToKeys m)` restores m; the eight key names map
injectively to the eight distinct single-bit masks. -/
theorem keys_bitmask_roundtrip :
    (∀ m : Nat, m < 256 → keysToBitmask (bitmaskToKeys m) = m)
  ∧ (∀ k1 k2 : M8KeyName, keyToBitmask k1 = keyToBitmask k2 → k1 = k2)
  ∧ (∀ k : M8KeyName, ∃ i, i < 8 ∧ keyToBitmask k = 2 ^ i) := by
  refine ⟨by decide, ?_, ?_⟩
  · intro k1 k2 h
    cases k1 <;> cases k2 <;> simp_all [keyToBitmask]
  · intro k
    cases k with
    | left => exact ⟨7, by decide, by decide⟩
    | up => exact ⟨6, by decide, by decide⟩
    | down => exact ⟨5, by decide, by decide⟩
    | right => exact ⟨2, by decide, by decide⟩
    | shift => exact ⟨4, by decide, by decide⟩
    | start => exact ⟨3, by decide, by decide⟩
    | opt => exact ⟨1, by decide, by decide⟩
    | edit => exact ⟨0, by decide, by decide⟩

/-- C9 witness: the round trip at bitmask 0xA5. -/
theorem keys_bitmask_roundtrip_witness :
    keysToBitmask (bitmaskToKeys 0xA5) = 0xA5 :=
  keys_bitmask_roundtrip.1 0xA5 (by decide)

end M8
